import Mathlib

/-!
Shallow embedding of the StackDaily backend daily-content pipeline:
the Daily Orchestrator (`runDailyFlow`, `markAsRead`), the Notification
Dispatcher (`sendToUser`, `sendToMultipleUsers`, `sendDailyNotifications`)
and the Answer Generator (`generateAnswer`, `generateForQuestion`).

Mongo documents become Lean structures over `Nat` ids; calendar dates
(`YYYY-MM-DD` strings in the code) become `Nat` day indices (the string
format is in bijection with days, and the code only ever compares such
strings for equality); `null`able fields become `Option`.  External
effects (the push gateway, the text-generation API) are passed in as
explicit oracle arguments, so each service method is a pure function of
the store state and the oracle outcomes.
-/

namespace StackDaily

/-- A `DailySelection` document: one question pinned to one topic for one
calendar date (`daily-selection` schema). -/
structure DailySelection where
  id : Nat
  date : Nat
  topicId : Nat
  questionId : Nat
  aiAnswerId : Option Nat
  notificationsSent : Nat
deriving DecidableEq, Repr

/-- The Mongo filter `{ date: today, topicId }` used by the upsert and the
read-back in `runDailyFlow`. -/
def selMatches (today tid : Nat) (s : DailySelection) : Bool :=
  s.date == today && s.topicId == tid

/-- Step 4 of `runDailyFlow`: `bulkWrite` upsert with `$setOnInsert` on
filter `{ date: today, topicId }` — insert-if-absent, fields (including
`notificationsSent = 0`) written only when no row matched. -/
def upsertDailySelection (sels : List DailySelection) (freshId today tid qid : Nat)
    (aid : Option Nat) : List DailySelection :=
  if sels.any (selMatches today tid) then sels
  else sels ++ [⟨freshId, today, tid, qid, aid, 0⟩]

/-- The `findOne({ date: today, topicId })` read-back after the upsert. -/
def findSelection (sels : List DailySelection) (today tid : Nat) : Option DailySelection :=
  sels.find? (selMatches today tid)

/-- Number of `DailySelection` rows matching `(date, topicId)`; the schema's
unique compound index makes this at most 1. -/
def countSelections (sels : List DailySelection) (today tid : Nat) : Nat :=
  (sels.filter (selMatches today tid)).length

/-- A `Question` document (question schema): `lastUsedDate` is nullable
(`none` = never used), `usageCount` defaults to 0. -/
structure Question where
  id : Nat
  topicId : Nat
  isActive : Bool
  lastUsedDate : Option Nat
  usageCount : Nat
deriving DecidableEq, Repr

/-- The Mongo filter `{ topicId, isActive: true }` of the claim query. -/
def isCand (tid : Nat) (q : Question) : Bool :=
  q.topicId == tid && q.isActive

/-- BSON ascending order on the `lastUsedDate` sort key: `null` sorts before
every date, dates compare numerically. -/
def luLE (a b : Option Nat) : Bool :=
  match a, b with
  | none, _ => true
  | some _, none => false
  | some x, some y => x ≤ y

/-- One scan step of the sorted claim query: keep the current best unless the
scanned record is a candidate with a strictly smaller sort key. -/
def bestStep (tid : Nat) (acc : Option Question) (q : Question) : Option Question :=
  if isCand tid q then
    match acc with
    | none => some q
    | some b => if luLE b.lastUsedDate q.lastUsedDate then some b else some q
  else acc

/-- The document returned by `sort({ lastUsedDate: 1 }).findOneAndUpdate`:
the first (in store order) candidate whose sort key is minimal. -/
def bestCand (qs : List Question) (tid : Nat) : Option Question :=
  qs.foldl (bestStep tid) none

/-- Apply the claim's update document `{$set: {lastUsedDate: now}, $inc: {usageCount: 1}}`
to one question record. -/
def applyClaim (now : Nat) (q : Question) : Question :=
  { q with lastUsedDate := some now, usageCount := q.usageCount + 1 }

/-- Rewrite the first occurrence of `target` in the store with the claim
update applied. -/
def updateFirst (qs : List Question) (target : Question) (now : Nat) : List Question :=
  match qs with
  | [] => []
  | q :: rest =>
    if q = target then applyClaim now q :: rest
    else q :: updateFirst rest target now

/-- Step 2 of `runDailyFlow`: atomic `findOneAndUpdate` claiming the
least-recently-used active question of the topic.  Returns the pre-update
document (`new: false`) and the updated store. -/
def claimQuestion (qs : List Question) (tid now : Nat) : Option Question × List Question :=
  match bestCand qs tid with
  | none => (none, qs)
  | some q => (some q, updateFirst qs q now)

-- ──────────────────────── Daily flow orchestration ───────────────────────

/-- Per-topic contribution to the run summary of `runDailyFlow`. -/
structure TopicStats where
  processed : Nat
  selected : Nat
  sent : Nat
  errs : Nat
deriving DecidableEq, Repr

/-- The mutable store touched by one topic iteration of `runDailyFlow`. -/
structure FlowState where
  questions : List Question
  selections : List DailySelection
deriving DecidableEq, Repr

/-- The run summary accumulated by `runDailyFlow` (`FlowSummary` in the
source, minus the wall-clock duration). -/
structure FlowSummary where
  topicsProcessed : Nat
  questionsSelected : Nat
  notificationsSent : Nat
  errors : Nat
deriving DecidableEq, Repr

def applyStats (s : FlowSummary) (t : TopicStats) : FlowSummary :=
  ⟨s.topicsProcessed + t.processed, s.questionsSelected + t.selected,
   s.notificationsSent + t.sent, s.errors + t.errs⟩

/-- The `updateOne({_id}, {$inc: {notificationsSent}})` at the end of a topic
iteration. -/
def incSent (sels : List DailySelection) (selId n : Nat) : List DailySelection :=
  sels.map (fun s =>
    if s.id == selId then { s with notificationsSent := s.notificationsSent + n } else s)

/-- Step 3 of `runDailyFlow`: `aiAnswerModel.findOne({ questionId })`; the
answer store is a list of `(answer id, question id)` pairs. -/
def findAnswerId (answers : List (Nat × Nat)) (qid : Nat) : Option Nat :=
  (answers.find? (fun a => a.2 == qid)).map (·.1)

/-- One topic iteration of `runDailyFlow` (steps 2-6): claim a question,
look up its answer, upsert the `DailySelection`, read it back, dispatch
notifications (outcome passed in as `notifyResult`), and `$inc` the
selection's counter by the number sent (0 when the dispatcher threw). -/
def topicBody (today now freshId : Nat) (answers : List (Nat × Nat))
    (notifyResult : Except String Nat) (tid : Nat) (st : FlowState) :
    FlowState × TopicStats :=
  match claimQuestion st.questions tid now with
  | (none, _) => (st, ⟨0, 0, 0, 1⟩)
  | (some q, qs') =>
    let aid := findAnswerId answers q.id
    let sels' := upsertDailySelection st.selections freshId today tid q.id aid
    match findSelection sels' today tid with
    | none => (⟨qs', sels'⟩, ⟨0, 1, 0, 1⟩)
    | some ds =>
      match notifyResult with
      | .ok n => (⟨qs', incSent sels' ds.id n⟩, ⟨1, 1, n, 0⟩)
      | .error _ => (⟨qs', incSent sels' ds.id 0⟩, ⟨1, 1, 0, 1⟩)

/-- The `for (const topic of activeTopics)` loop with its surrounding
per-topic `try/catch`: a body failure (`.error`) is absorbed into the
error count and the loop moves on to the next topic. -/
def flowLoop (body : Nat → FlowState → Except String (FlowState × TopicStats)) :
    List Nat → FlowState × FlowSummary → FlowState × FlowSummary
  | [], acc => acc
  | t :: ts, acc =>
    match body t acc.1 with
    | .ok (st', stats) => flowLoop body ts (st', applyStats acc.2 stats)
    | .error _ => flowLoop body ts (acc.1, applyStats acc.2 ⟨0, 0, 0, 1⟩)

/-- `runDailyFlow`: fetch the active topics (`topicsQuery`), then run the
per-topic loop; a failure of the initial query is caught by the outer
`try/catch` and ends the run with an untouched store. -/
def runDailyFlow (topicsQuery : Except String (List Nat))
    (body : Nat → FlowState → Except String (FlowState × TopicStats))
    (st : FlowState) : FlowState × FlowSummary :=
  match topicsQuery with
  | .error _ => (st, ⟨0, 0, 0, 0⟩)
  | .ok topics => flowLoop body topics (st, ⟨0, 0, 0, 0⟩)

-- ─────────────────────── Notification dispatcher ──────────────────────────

/-- `NotificationStatus` enum of the notification-log schema. -/
inductive NotificationStatus
  | pending
  | sent
  | failed
  | delivered
deriving DecidableEq, Repr

/-- A persisted `NotificationLog` row. -/
structure NotificationLog where
  userId : Nat
  dailySelectionId : Nat
  status : NotificationStatus
  error : Option String
deriving DecidableEq, Repr

/-- FCM error codes indicating an invalid or expired registration token. -/
def INVALID_TOKEN_CODES : List String :=
  ["messaging/invalid-registration-token", "messaging/registration-token-not-registered"]

/-- The sentinel written into `fcmToken` by `markTokenInvalid`. -/
def invalidSentinel : String := "__invalid__"

/-- A user's streak sub-document. -/
structure Streak where
  count : Nat
  lastActiveDate : Option Nat
deriving DecidableEq, Repr

/-- A `User` document restricted to the fields the core reads/writes. -/
structure User where
  id : Nat
  isActive : Bool
  subscribedTopics : List Nat
  fcmToken : Option String
  streak : Streak
deriving DecidableEq, Repr

/-- `markTokenInvalid`: `updateOne({_id}, {$set: {fcmToken: '__invalid__'}})`. -/
def markTokenInvalid (users : List User) (userId : Nat) : List User :=
  users.map (fun u =>
    if u.id == userId then { u with fcmToken := some invalidSentinel } else u)

/-- `bulkMarkTokensInvalid`: flag a set of users in one `updateMany`. -/
def bulkMarkTokensInvalid (users : List User) (ids : List Nat) : List User :=
  users.map (fun u =>
    if ids.contains u.id then { u with fcmToken := some invalidSentinel } else u)

/-- `BatchUserEntry`: `(userId, fcmToken)` pair handed to the multicast send. -/
structure BatchUserEntry where
  userId : Nat
  fcmToken : String
deriving DecidableEq, Repr

/-- Per-recipient entry of a `sendEachForMulticast` response. -/
inductive SendResp
  | success
  | failure (code msg : String)
deriving DecidableEq, Repr

def SendResp.isSuccess : SendResp → Bool
  | .success => true
  | .failure _ _ => false

/-- `sendToUser`: send one message (gateway outcome passed in), persist one
log row — `sent` on success, `failed` with a `code: message` string on
failure — and flag the token when the code marks it invalid.  Returns the
log row, the log store, and the user store. -/
def sendToUser (userId selId : Nat) (gw : Except (String × String) String)
    (logs : List NotificationLog) (users : List User) :
    NotificationLog × List NotificationLog × List User :=
  match gw with
  | .ok _ =>
    let entry : NotificationLog := ⟨userId, selId, .sent, none⟩
    (entry, logs ++ [entry], users)
  | .error (code, msg) =>
    let entry : NotificationLog := ⟨userId, selId, .failed, some (code ++ ": " ++ msg)⟩
    (entry, logs ++ [entry],
      if INVALID_TOKEN_CODES.contains code then markTokenInvalid users userId else users)

/-- Accumulated outcome of `sendToMultipleUsers`: totals, the log rows
bulk-inserted, and the user ids collected for invalid-token cleanup. -/
structure SendAcc where
  sent : Nat
  failed : Nat
  logs : List NotificationLog
  invalidIds : List Nat
deriving DecidableEq, Repr

def emptyAcc : SendAcc := ⟨0, 0, [], []⟩

def combineAcc (a b : SendAcc) : SendAcc :=
  ⟨a.sent + b.sent, a.failed + b.failed, a.logs ++ b.logs, a.invalidIds ++ b.invalidIds⟩

/-- The log row written for one recipient of a multicast batch. -/
def perRecipientLog (selId : Nat) (u : BatchUserEntry) (r : SendResp) : NotificationLog :=
  match r with
  | .success => ⟨u.userId, selId, .sent, none⟩
  | .failure code msg => ⟨u.userId, selId, .failed, some (code ++ ": " ++ msg)⟩

/-- One batch iteration of `sendToMultipleUsers`: on a per-recipient
response, one log row per recipient plus invalid-token collection; when the
whole multicast call throws, one `failed` row with a `batch_error` code per
recipient of the batch. -/
def processBatch (selId : Nat) (batch : List BatchUserEntry)
    (resp : Except String (List SendResp)) : SendAcc :=
  match resp with
  | .error msg =>
    ⟨0, batch.length,
      batch.map (fun u => ⟨u.userId, selId, .failed, some ("batch_error: " ++ msg)⟩),
      []⟩
  | .ok resps =>
    ⟨(resps.filter SendResp.isSuccess).length,
     (resps.filter (fun r => ! r.isSuccess)).length,
     List.zipWith (perRecipientLog selId) batch resps,
     (List.zipWith (fun (u : BatchUserEntry) r => (u, r)) batch resps).filterMap
       (fun p =>
         match p.2 with
         | .failure code _ =>
           if INVALID_TOKEN_CODES.contains code then some p.1.userId else none
         | .success => none)⟩

/-- Split the recipient list into `slice` batches of at most `L`, in order
(`fuel` bounds the recursion; `xs.length` is always enough fuel). -/
def chunksGo {α : Type} : Nat → Nat → List α → List (List α)
  | _, _, [] => []
  | 0, _, _ :: _ => []
  | fuel + 1, L, x :: rest => ((x :: rest).take L) :: chunksGo fuel L ((x :: rest).drop L)

def chunks {α : Type} (L : Nat) (xs : List α) : List (List α) :=
  chunksGo xs.length L xs

/-- `Math.ceil(users.length / fcmBatchLimit)` as computed by the source. -/
def totalBatches (n L : Nat) : Nat := (n + L - 1) / L

/-- `sendToMultipleUsers`: process the batches in order, one external
multicast call each (its outcome is the matching entry of `resps`),
aggregating counts, bulk-inserted log rows and invalid-token ids. -/
def sendToMultipleUsers (selId L : Nat) (users : List BatchUserEntry)
    (resps : List (Except String (List SendResp))) : SendAcc :=
  (List.zipWith (processBatch selId) (chunks L users) resps).foldl combineAcc emptyAcc

-- ──────────────────── Daily notification dispatch ─────────────────────────

/-- The recipient query of `sendDailyNotifications`:
`{isActive: true, subscribedTopics: topicId, fcmToken: {$ne: null, $exists: true}}`. -/
def eligibleUsers (users : List User) (tid : Nat) : List User :=
  users.filter (fun u => u.isActive && u.subscribedTopics.contains tid && u.fcmToken.isSome)

/-- The recipient set as the spec words it ("non-null, non-sentinel token"):
additionally excludes the `'__invalid__'` sentinel.  Kept for comparison
with the query the source actually issues. -/
def claimedEligibleUsers (users : List User) (tid : Nat) : List User :=
  users.filter (fun u => u.isActive && u.subscribedTopics.contains tid &&
    (match u.fcmToken with
     | some t => ! (t == invalidSentinel)
     | none => false))

/-- `sendDailyNotifications`: resolve the recipient set; an empty set is a
no-op returning `{sent: 0, failed: 0}`; otherwise delegate to
`sendToMultipleUsers`. -/
def sendDailyNotifications (users : List User) (tid selId L : Nat)
    (resps : List (Except String (List SendResp))) : SendAcc :=
  let eligible := eligibleUsers users tid
  if eligible.length == 0 then emptyAcc
  else
    sendToMultipleUsers selId L
      (eligible.map (fun u => ⟨u.id, u.fcmToken.getD ""⟩)) resps

-- ───────────────────────── Mark as read / streaks ─────────────────────────

/-- `markAsRead(userId, selectionId)`: `NotFound` when the selection or the
user is missing; otherwise calendar-day streak update — same day: no write;
exactly yesterday (`today - 1`): increment; otherwise (null or gap ≥ 2
days): reset to 1 — persisted together with `lastActiveDate = today`. -/
def markAsRead (sels : List DailySelection) (users : List User)
    (userId selId today : Nat) : Except String (List User) :=
  match sels.find? (fun s => s.id == selId) with
  | none => .error "Daily selection not found"
  | some _ =>
    match users.find? (fun v => v.id == userId) with
    | none => .error "User not found"
    | some u =>
      if u.streak.lastActiveDate = some today then .ok users
      else
        let newCount :=
          if u.streak.lastActiveDate = some (today - 1) then u.streak.count + 1 else 1
        .ok (users.map (fun v =>
          if v.id == userId then { v with streak := ⟨newCount, some today⟩ } else v))

/-- `markAsRead` on `n` consecutive calendar days starting at `day`
(failures leave the store unchanged, as the thrown exception would). -/
def markAsReadDays (sels : List DailySelection) (userId selId : Nat) :
    Nat → Nat → List User → List User
  | _, 0, users => users
  | day, n + 1, users =>
    markAsReadDays sels userId selId (day + 1) n
      (match markAsRead sels users userId selId day with
       | .ok us => us
       | .error _ => users)

-- ─────────────────────────── Answer generator ──────────────────────────────

/-- An error thrown by the text-generation SDK: optional HTTP status
(`error.status ?? error.statusCode`), optional network error code, message. -/
structure ApiError where
  status : Option Nat
  code : Option String
  msg : String
deriving DecidableEq, Repr

/-- `isRetryableError`: HTTP 429, any 5xx, or a transient network error
code (`ECONNRESET`, `ETIMEDOUT`, `ENOTFOUND`, `EAI_AGAIN`). -/
def isRetryableError (e : ApiError) : Bool :=
  if e.status == some 429 then true
  else if (match e.status with | some s => decide (500 ≤ s) | none => false) then true
  else e.code == some "ECONNRESET" || e.code == some "ETIMEDOUT" ||
       e.code == some "ENOTFOUND" || e.code == some "EAI_AGAIN"

/-- The `{answer, tokenCount}` pair returned by a successful completion. -/
structure GenerateAnswerResult where
  answer : String
  tokenCount : Nat
deriving DecidableEq, Repr

/-- Maximum number of attempts against the completion API. -/
def MAX_RETRIES : Nat := 3

/-- Base delay in milliseconds for the exponential backoff. -/
def BASE_RETRY_DELAY_MS : Nat := 1000

/-- The retry loop of `generateAnswer`: `api n` is the outcome of the
`n`-th external call.  Returns the number of calls made, the list of
backoff sleeps (ms) in order, and the final outcome (the last error is
rethrown after the retries are exhausted). -/
def genGo (api : Nat → Except ApiError GenerateAnswerResult) (attempt : Nat) :
    Nat → Nat × List Nat × Except ApiError GenerateAnswerResult
  | 0 => (0, [], .error ⟨none, none, "no attempt"⟩)
  | remaining + 1 =>
    match api attempt with
    | .ok res => (1, [], .ok res)
    | .error e =>
      if isRetryableError e = false ∨ remaining = 0 then (1, [], .error e)
      else
        let r0 := genGo api (attempt + 1) remaining
        (r0.1 + 1, BASE_RETRY_DELAY_MS * 2 ^ (attempt - 1) :: r0.2.1, r0.2.2)

/-- `generateAnswer`: up to `MAX_RETRIES` attempts starting at attempt 1. -/
def generateAnswer (api : Nat → Except ApiError GenerateAnswerResult) :
    Nat × List Nat × Except ApiError GenerateAnswerResult :=
  genGo api 1 MAX_RETRIES

-- ───────────────────── Per-question generation (C6) ───────────────────────

/-- An `AiAnswer` document (`questionId` carries a unique index). -/
structure AiAnswer where
  id : Nat
  questionId : Nat
  answer : String
  generatedAt : Nat
  model : String
  tokenCount : Nat
  isStale : Bool
deriving DecidableEq, Repr

/-- The store read by `generateForQuestion`. -/
structure GenState where
  answers : List AiAnswer
  questions : List Question
deriving DecidableEq, Repr

/-- The `$set` document of the answer upsert: overwrite text, timestamp,
model and token count, clear the stale flag; everything else unchanged. -/
def refreshAnswer (now : Nat) (modelName : String) (r : GenerateAnswerResult)
    (a : AiAnswer) : AiAnswer :=
  { a with answer := r.answer, generatedAt := now, model := modelName,
           tokenCount := r.tokenCount, isStale := false }

/-- Update pass of the answer upsert: refresh the first record matching
`{questionId: qid}`, returning the updated document and store (`none` when
no record matches). -/
def upsertAnswerGo (qid now : Nat) (modelName : String) (r : GenerateAnswerResult) :
    List AiAnswer → Option (AiAnswer × List AiAnswer)
  | [] => none
  | a :: rest =>
    if a.questionId == qid then
      some (refreshAnswer now modelName r a, refreshAnswer now modelName r a :: rest)
    else
      match upsertAnswerGo qid now modelName r rest with
      | some (doc, rest') => some (doc, a :: rest')
      | none => none

/-- `findOneAndUpdate({questionId}, {$set: ...}, {upsert: true, new: true})`:
overwrite the matching record, or insert a fresh one; returns the
post-update document and the store. -/
def upsertAnswer (answers : List AiAnswer) (qid freshId now : Nat)
    (modelName : String) (r : GenerateAnswerResult) : AiAnswer × List AiAnswer :=
  match upsertAnswerGo qid now modelName r answers with
  | some (doc, answers') => (doc, answers')
  | none =>
    let fresh : AiAnswer := ⟨freshId, qid, r.answer, now, modelName, r.tokenCount, false⟩
    (fresh, answers ++ [fresh])

/-- `generateForQuestion`: return the cached non-stale answer if one
exists (no external call); otherwise require the question to exist, call
the generator (`gen` is its outcome) and upsert the answer.  The third
component counts external text-generation calls. -/
def generateForQuestion (st : GenState) (gen : Except ApiError GenerateAnswerResult)
    (modelName : String) (now freshId qid : Nat) :
    Except String (AiAnswer × List AiAnswer × Nat) :=
  match st.answers.find? (fun a => a.questionId == qid && ! a.isStale) with
  | some a => .ok (a, st.answers, 0)
  | none =>
    match st.questions.find? (fun q => q.id == qid) with
    | none => .error "Question not found"
    | some _ =>
      match gen with
      | .error e => .error e.msg
      | .ok r =>
        let p := upsertAnswer st.answers qid freshId now modelName r
        .ok (p.1, p.2, 1)

theorem find?_append_of_none {α : Type} (p : α → Bool) (l1 l2 : List α)
    (h : l1.find? p = none) : (l1 ++ l2).find? p = l2.find? p := by
  induction l1 with
  | nil => simp
  | cons a l ih =>
    cases hp : p a with
    | true => simp [List.find?_cons, hp] at h
    | false =>
      simp only [List.find?_cons, hp] at h
      rw [List.cons_append]
      simp only [List.find?_cons, hp]
      exact ih h

/-- C1: `runDailyFlow` keeps at most one `DailySelection` per `(date, topic)`:
the upsert leaves an invariant-satisfying store with exactly one matching row,
a pre-existing row is read back unchanged (the upsert is a no-op), and on
insert the new row carries `notificationsSent = 0`. -/
theorem dailySelection_upsert_unique (sels : List DailySelection)
    (freshId today tid qid : Nat) (aid : Option Nat)
    (hinv : countSelections sels today tid ≤ 1) :
    countSelections (upsertDailySelection sels freshId today tid qid aid) today tid = 1 ∧
    (∀ s, findSelection sels today tid = some s →
      upsertDailySelection sels freshId today tid qid aid = sels ∧
      findSelection (upsertDailySelection sels freshId today tid qid aid) today tid = some s) ∧
    (findSelection sels today tid = none →
      findSelection (upsertDailySelection sels freshId today tid qid aid) today tid =
        some ⟨freshId, today, tid, qid, aid, 0⟩) := by
  cases hany : sels.any (selMatches today tid) with
  | true =>
    have hup : upsertDailySelection sels freshId today tid qid aid = sels := by
      simp [upsertDailySelection, hany]
    refine ⟨?_, ?_, ?_⟩
    · rw [hup]
      rcases List.any_eq_true.mp hany with ⟨x, hx, hpx⟩
      have hmem : x ∈ sels.filter (selMatches today tid) := List.mem_filter.mpr ⟨hx, hpx⟩
      have hpos : 0 < (sels.filter (selMatches today tid)).length :=
        List.length_pos.mpr (List.ne_nil_of_mem hmem)
      unfold countSelections at hinv ⊢
      omega
    · intro s hs; rw [hup]; exact ⟨rfl, hs⟩
    · intro hnone
      exfalso
      rcases List.any_eq_true.mp hany with ⟨x, hx, hpx⟩
      have := List.find?_eq_none.mp hnone x hx
      simp [hpx] at this
  | false =>
    have hall : ∀ x ∈ sels, selMatches today tid x = false := by
      intro x hx
      by_contra hc
      rw [Bool.not_eq_false] at hc
      have : sels.any (selMatches today tid) = true := List.any_eq_true.mpr ⟨x, hx, hc⟩
      rw [hany] at this; cases this
    have hup : upsertDailySelection sels freshId today tid qid aid
        = sels ++ [⟨freshId, today, tid, qid, aid, 0⟩] := by
      simp [upsertDailySelection, hany]
    have hfn : findSelection sels today tid = none := by
      unfold findSelection
      exact List.find?_eq_none.mpr (fun x hx => by simp [hall x hx])
    have hmatch : selMatches today tid ⟨freshId, today, tid, qid, aid, 0⟩ = true := by
      simp [selMatches]
    refine ⟨?_, ?_, ?_⟩
    · unfold countSelections
      rw [hup, List.filter_append]
      have hnil : sels.filter (selMatches today tid) = [] := List.filter_eq_nil_iff.mpr (by
        intro a ha; simp [hall a ha])
      simp [hnil, hmatch]
    · intro s hs
      rw [hfn] at hs; cases hs
    · intro _
      unfold findSelection
      rw [hup, find?_append_of_none _ _ _ hfn]
      simp [List.find?_cons, hmatch]

theorem luLE_total (a b : Option Nat) : luLE a b = true ∨ luLE b a = true := by
  cases a with
  | none => exact Or.inl rfl
  | some x =>
    cases b with
    | none => exact Or.inr rfl
    | some y =>
      rcases Nat.le_total x y with h | h
      · exact Or.inl (by simpa [luLE] using h)
      · exact Or.inr (by simpa [luLE] using h)

theorem luLE_refl (a : Option Nat) : luLE a a = true := by
  rcases luLE_total a a with h | h
  · exact h
  · exact h

theorem luLE_trans {a b c : Option Nat} (h1 : luLE a b = true) (h2 : luLE b c = true) :
    luLE a c = true := by
  cases a with
  | none => rfl
  | some x =>
    cases b with
    | none => simp [luLE] at h1
    | some y =>
      cases c with
      | none => simp [luLE] at h2
      | some z =>
        simp only [luLE, decide_eq_true_eq] at h1 h2 ⊢
        omega

/-- Exhaustive description of one `bestStep`. -/
theorem bestStep_cases (tid : Nat) (acc : Option Question) (q : Question) :
    (bestStep tid acc q = acc ∧ isCand tid q = false) ∨
    (isCand tid q = true ∧
      ((acc = none ∧ bestStep tid acc q = some q) ∨
       (∃ b0, acc = some b0 ∧
         ((luLE b0.lastUsedDate q.lastUsedDate = true ∧ bestStep tid acc q = some b0) ∨
          (luLE b0.lastUsedDate q.lastUsedDate = false ∧ bestStep tid acc q = some q))))) := by
  by_cases hq : isCand tid q = true
  · refine Or.inr ⟨hq, ?_⟩
    cases acc with
    | none => exact Or.inl ⟨rfl, by simp [bestStep, hq]⟩
    | some b0 =>
      refine Or.inr ⟨b0, rfl, ?_⟩
      cases hle : luLE b0.lastUsedDate q.lastUsedDate with
      | true => exact Or.inl ⟨rfl, by simp [bestStep, hq, hle]⟩
      | false => exact Or.inr ⟨rfl, by simp [bestStep, hq, hle]⟩
  · rw [Bool.not_eq_true] at hq
    exact Or.inl ⟨by simp [bestStep, hq], hq⟩

/-- The fold underlying `bestCand` returns a candidate from the store (or the
seed) whose key is `luLE`-below every candidate scanned. -/
theorem bestCand_fold_spec (tid : Nat) (qs : List Question) : ∀ (acc : Option Question),
    (∀ b, acc = some b → isCand tid b = true) →
    (∀ b, qs.foldl (bestStep tid) acc = some b →
      (isCand tid b = true) ∧
      (b ∈ qs ∨ acc = some b) ∧
      (∀ c ∈ qs, isCand tid c = true → luLE b.lastUsedDate c.lastUsedDate = true) ∧
      (∀ c, acc = some c → luLE b.lastUsedDate c.lastUsedDate = true)) ∧
    (qs.foldl (bestStep tid) acc = none → acc = none ∧ ∀ c ∈ qs, isCand tid c = false) := by
  induction qs with
  | nil =>
    intro acc hacc
    constructor
    · intro b hb
      simp only [List.foldl_nil] at hb
      refine ⟨hacc b hb, Or.inr hb, by simp, ?_⟩
      intro c hc
      rw [hb] at hc
      injection hc with hc
      subst hc
      exact luLE_refl _
    · intro h
      simp only [List.foldl_nil] at h
      exact ⟨h, by simp⟩
  | cons q rest ih =>
    intro acc hacc
    simp only [List.foldl_cons]
    rcases bestStep_cases tid acc q with ⟨heq, hq⟩ | ⟨hq, hsplit⟩
    · -- q is not a candidate: the seed is unchanged
      rw [heq]
      have hrec := ih acc hacc
      constructor
      · intro b hb
        obtain ⟨h1, h2, h3, h4⟩ := hrec.1 b hb
        refine ⟨h1, ?_, ?_, h4⟩
        · rcases h2 with h | h
          · exact Or.inl (List.mem_cons_of_mem _ h)
          · exact Or.inr h
        · intro c hc hcc
          rcases List.mem_cons.mp hc with rfl | hc'
          · rw [hq] at hcc; cases hcc
          · exact h3 c hc' hcc
      · intro hn
        obtain ⟨h1, h2⟩ := hrec.2 hn
        refine ⟨h1, fun c hc => ?_⟩
        rcases List.mem_cons.mp hc with rfl | hc'
        · exact hq
        · exact h2 c hc'
    · rcases hsplit with ⟨hAcc, heq⟩ | ⟨b0, hAcc, hcase⟩
      · -- empty seed: q becomes the running best
        subst hAcc
        rw [heq]
        have hrec := ih (some q) (fun b hb => by injection hb with hb; subst hb; exact hq)
        constructor
        · intro b hb
          obtain ⟨h1, h2, h3, h4⟩ := hrec.1 b hb
          refine ⟨h1, ?_, ?_, by intro c hc; cases hc⟩
          · rcases h2 with h | h
            · exact Or.inl (List.mem_cons_of_mem _ h)
            · injection h with h
              subst h
              exact Or.inl (List.mem_cons_self _ _)
          · intro c hc hcc
            rcases List.mem_cons.mp hc with rfl | hc'
            · exact h4 c rfl
            · exact h3 c hc' hcc
        · intro hn
          obtain ⟨h1, _⟩ := hrec.2 hn
          cases h1
      · subst hAcc
        rcases hcase with ⟨hle, heq⟩ | ⟨hle, heq⟩
        · -- the running best b0 stays (its key is below q's)
          rw [heq]
          have hrec := ih (some b0) hacc
          constructor
          · intro b hb
            obtain ⟨h1, h2, h3, h4⟩ := hrec.1 b hb
            have hbb0 : luLE b.lastUsedDate b0.lastUsedDate = true := h4 b0 rfl
            refine ⟨h1, ?_, ?_, fun c hc => by injection hc with hc; subst hc; exact hbb0⟩
            · rcases h2 with h | h
              · exact Or.inl (List.mem_cons_of_mem _ h)
              · exact Or.inr h
            · intro c hc hcc
              rcases List.mem_cons.mp hc with rfl | hc'
              · exact luLE_trans hbb0 hle
              · exact h3 c hc' hcc
          · intro hn
            obtain ⟨h1, _⟩ := hrec.2 hn
            cases h1
        · -- q displaces the running best b0 (strictly smaller key)
          rw [heq]
          have hrec := ih (some q) (fun b hb => by injection hb with hb; subst hb; exact hq)
          have hqb0 : luLE q.lastUsedDate b0.lastUsedDate = true := by
            rcases luLE_total q.lastUsedDate b0.lastUsedDate with h | h
            · exact h
            · rw [hle] at h; cases h
          constructor
          · intro b hb
            obtain ⟨h1, h2, h3, h4⟩ := hrec.1 b hb
            have hbq : luLE b.lastUsedDate q.lastUsedDate = true := h4 q rfl
            refine ⟨h1, ?_, ?_,
              fun c hc => by injection hc with hc; subst hc; exact luLE_trans hbq hqb0⟩
            · rcases h2 with h | h
              · exact Or.inl (List.mem_cons_of_mem _ h)
              · injection h with h
                subst h
                exact Or.inl (List.mem_cons_self _ _)
            · intro c hc hcc
              rcases List.mem_cons.mp hc with rfl | hc'
              · exact hbq
              · exact h3 c hc' hcc
          · intro hn
            obtain ⟨h1, _⟩ := hrec.2 hn
            cases h1

theorem bestCand_eq_none_of_no_cand (qs : List Question) (tid : Nat)
    (h : ∀ c ∈ qs, isCand tid c = false) : bestCand qs tid = none := by
  unfold bestCand
  induction qs with
  | nil => rfl
  | cons q rest ih =>
    rw [List.foldl_cons]
    have hq : isCand tid q = false := h q (List.mem_cons_self _ _)
    have hstep : bestStep tid none q = none := by simp [bestStep, hq]
    rw [hstep]
    exact ih (fun c hc => h c (List.mem_cons_of_mem _ hc))

theorem updateFirst_decomp (qs : List Question) (target : Question) (now : Nat)
    (h : target ∈ qs) :
    ∃ l1 l2, qs = l1 ++ target :: l2 ∧
      updateFirst qs target now = l1 ++ applyClaim now target :: l2 := by
  induction qs with
  | nil => cases h
  | cons q rest ih =>
    by_cases hq : q = target
    · subst hq
      exact ⟨[], rest, rfl, by simp [updateFirst]⟩
    · have hmem : target ∈ rest := by
        rcases List.mem_cons.mp h with h' | h'
        · exact absurd h'.symm hq
        · exact h'
      obtain ⟨l1, l2, he, hu⟩ := ih hmem
      refine ⟨q :: l1, l2, by rw [he]; rfl, ?_⟩
      simp only [updateFirst, if_neg hq, hu]
      rfl

/-- If `f` preserves the predicate value of every element, mapping it over
the store maps the first `find?` hit. -/
theorem find?_map_pres {α : Type} (p : α → Bool) (f : α → α) (l : List α)
    (hf : ∀ x, p (f x) = p x) (s : α) (h : l.find? p = some s) :
    (l.map f).find? p = some (f s) := by
  induction l with
  | nil => cases h
  | cons a rest ih =>
    cases hp : p a with
    | true =>
      simp only [List.find?_cons, hp] at h
      injection h with h
      subst h
      simp [List.find?_cons, hf a, hp]
    | false =>
      simp only [List.find?_cons, hp] at h
      simp only [List.map_cons, List.find?_cons, hf a, hp]
      exact ih h

/-- When the topic has a candidate, the claim returns some question of the
store and rewrites exactly that occurrence with the claim update. -/
theorem claimQuestion_some_of_cand (qs : List Question) (tid now : Nat)
    (hex : ∃ q ∈ qs, isCand tid q = true) :
    ∃ sel l1 l2, claimQuestion qs tid now = (some sel, l1 ++ applyClaim now sel :: l2) ∧
      qs = l1 ++ sel :: l2 := by
  cases hbc : bestCand qs tid with
  | none =>
    exfalso
    obtain ⟨q, hq, hqc⟩ := hex
    have := ((bestCand_fold_spec tid qs none (fun b hb => by cases hb)).2 hbc).2 q hq
    rw [hqc] at this; cases this
  | some sel =>
    obtain ⟨_, h2, _, _⟩ :=
      (bestCand_fold_spec tid qs none (fun b hb => by cases hb)).1 sel hbc
    have hmem : sel ∈ qs := by
      rcases h2 with h | h
      · exact h
      · cases h
    obtain ⟨l1, l2, hdec, hupd⟩ := updateFirst_decomp qs sel now hmem
    refine ⟨sel, l1, l2, ?_, hdec⟩
    unfold claimQuestion
    rw [hbc]
    change (some sel, updateFirst qs sel now) = _
    rw [hupd]

/-- C3: the claim step atomically selects the active question of the topic
with the smallest `lastUsedDate` (`none` sorting first), sets its
`lastUsedDate` to now and increments `usageCount` in the same operation;
in the A/B scenario the never-used question A wins with `usageCount` 1; a
topic with no active question records an error and the loop continues. -/
theorem dailyFlow_claim_lru (qs : List Question) (tid now : Nat)
    (hex : ∃ q ∈ qs, isCand tid q = true) :
    (∃ sel l1 l2,
      claimQuestion qs tid now = (some sel, l1 ++ applyClaim now sel :: l2) ∧
      qs = l1 ++ sel :: l2 ∧
      sel.topicId = tid ∧ sel.isActive = true ∧
      (∀ c ∈ qs, isCand tid c = true → luLE sel.lastUsedDate c.lastUsedDate = true) ∧
      (applyClaim now sel).lastUsedDate = some now ∧
      (applyClaim now sel).usageCount = sel.usageCount + 1) ∧
    (claimQuestion [⟨1, 7, true, none, 0⟩, ⟨2, 7, true, some 97, 4⟩] 7 100 =
      (some ⟨1, 7, true, none, 0⟩,
        [⟨1, 7, true, some 100, 1⟩, ⟨2, 7, true, some 97, 4⟩])) ∧
    (∀ (qs0 : List Question) (tid0 : Nat), (∀ c ∈ qs0, isCand tid0 c = false) →
      claimQuestion qs0 tid0 now = (none, qs0)) ∧
    (∀ (today freshId : Nat) (answers : List (Nat × Nat)) (st : FlowState)
        (s : FlowSummary) (notify : Nat → Except String Nat) (ts : List Nat),
      (∀ c ∈ st.questions, isCand tid c = false) →
      flowLoop (fun t stt => .ok (topicBody today now freshId answers (notify t) t stt))
          (tid :: ts) (st, s) =
        flowLoop (fun t stt => .ok (topicBody today now freshId answers (notify t) t stt))
          ts (st, applyStats s ⟨0, 0, 0, 1⟩)) := by
  have hnone : ∀ (qs0 : List Question) (tid0 : Nat),
      (∀ c ∈ qs0, isCand tid0 c = false) → claimQuestion qs0 tid0 now = (none, qs0) := by
    intro qs0 tid0 h
    unfold claimQuestion
    rw [bestCand_eq_none_of_no_cand qs0 tid0 h]
  refine ⟨?_, by decide, hnone, ?_⟩
  · cases hbc : bestCand qs tid with
    | none =>
      exfalso
      obtain ⟨q, hq, hqc⟩ := hex
      have := ((bestCand_fold_spec tid qs none (fun b hb => by cases hb)).2 hbc).2 q hq
      rw [hqc] at this; cases this
    | some sel =>
      obtain ⟨h1, h2, h3, _⟩ :=
        (bestCand_fold_spec tid qs none (fun b hb => by cases hb)).1 sel hbc
      have hmem : sel ∈ qs := by
        rcases h2 with h | h
        · exact h
        · cases h
      obtain ⟨l1, l2, hdec, hupd⟩ := updateFirst_decomp qs sel now hmem
      refine ⟨sel, l1, l2, ?_, hdec, ?_, ?_, h3, rfl, rfl⟩
      · unfold claimQuestion
        rw [hbc]
        change (some sel, updateFirst qs sel now) = _
        rw [hupd]
      · have := h1
        unfold isCand at this
        simp only [Bool.and_eq_true, beq_iff_eq] at this
        exact this.1
      · have := h1
        unfold isCand at this
        simp only [Bool.and_eq_true, beq_iff_eq] at this
        exact this.2
  · intro today freshId answers st s notify ts h
    have hclaim := hnone st.questions tid h
    have hbody : topicBody today now freshId answers (notify tid) tid st = (st, ⟨0, 0, 0, 1⟩) := by
      unfold topicBody
      rw [hclaim]
    show flowLoop _ (tid :: ts) (st, s) = _
    rw [flowLoop]
    simp only [hbody]

/-- Witness for `dailyFlow_claim_lru` at the spec's A/B scenario. -/
theorem dailyFlow_claim_lru_witness :
    (∃ q ∈ ([⟨1, 7, true, none, 0⟩, ⟨2, 7, true, some 97, 4⟩] : List Question),
      isCand 7 q = true) ∧
    claimQuestion [⟨1, 7, true, none, 0⟩, ⟨2, 7, true, some 97, 4⟩] 7 100 =
      (some ⟨1, 7, true, none, 0⟩,
        [⟨1, 7, true, some 100, 1⟩, ⟨2, 7, true, some 97, 4⟩]) :=
  ⟨by decide,
    (dailyFlow_claim_lru [⟨1, 7, true, none, 0⟩, ⟨2, 7, true, some 97, 4⟩] 7 100
      (by decide)).2.1⟩

/-- C8: a topic-level exception is absorbed into the summary's error count
and never stops the loop over the remaining topics; the composition law
shows every remaining topic is still processed; a failure of the initial
active-topics query ends the run without touching the store and without
escaping `runDailyFlow`. -/
theorem dailyFlow_topic_isolation
    (body : Nat → FlowState → Except String (FlowState × TopicStats))
    (t : Nat) (ts : List Nat) (st : FlowState) (s : FlowSummary) (e : String)
    (herr : body t st = .error e) :
    flowLoop body (t :: ts) (st, s) = flowLoop body ts (st, applyStats s ⟨0, 0, 0, 1⟩) ∧
    (applyStats s ⟨0, 0, 0, 1⟩).errors = s.errors + 1 ∧
    (∀ ts1 ts2 acc, flowLoop body (ts1 ++ ts2) acc = flowLoop body ts2 (flowLoop body ts1 acc)) ∧
    (∀ (e' : String) (st' : FlowState),
      runDailyFlow (.error e') body st' = (st', ⟨0, 0, 0, 0⟩)) := by
  refine ⟨?_, rfl, ?_, fun e' st' => rfl⟩
  · rw [flowLoop]
    simp only [herr]
  · intro ts1
    induction ts1 with
    | nil => intro ts2 acc; rfl
    | cons a rest ih =>
      intro ts2 acc
      rw [List.cons_append, flowLoop, flowLoop]
      cases hb : body a acc.1 with
      | ok p => exact ih ts2 _
      | error _ => exact ih ts2 _

/-- Witness for `dailyFlow_topic_isolation` with a body that throws. -/
theorem dailyFlow_topic_isolation_witness :
    ((fun (_ : Nat) (_ : FlowState) =>
        (.error "boom" : Except String (FlowState × TopicStats))) 0 ⟨[], []⟩ =
      .error "boom") ∧
    flowLoop (fun _ _ => .error "boom") [0] (⟨[], []⟩, ⟨0, 0, 0, 0⟩) =
      flowLoop (fun _ _ => .error "boom") []
        (⟨[], []⟩, applyStats ⟨0, 0, 0, 0⟩ ⟨0, 0, 0, 1⟩) :=
  ⟨rfl,
    (dailyFlow_topic_isolation (fun _ _ => .error "boom") 0 [] ⟨[], []⟩ ⟨0, 0, 0, 0⟩
      "boom" rfl).1⟩

/-- C10: replaying `runDailyFlow` when a `DailySelection` for `(today, topic)`
already exists still performs the question claim (mutating the claimed
question), leaves the existing record's `date`, `topicId`, `questionId` and
`aiAnswerId` unchanged, and modifies only its `notificationsSent`, by
increment. -/
theorem dailyFlow_replay_frame (today now freshId tid n : Nat)
    (answers : List (Nat × Nat)) (st : FlowState) (s0 : DailySelection)
    (hsel : findSelection st.selections today tid = some s0)
    (hex : ∃ q ∈ st.questions, isCand tid q = true) :
    ∃ sel l1 l2,
      st.questions = l1 ++ sel :: l2 ∧
      (topicBody today now freshId answers (.ok n) tid st).1.questions =
        l1 ++ applyClaim now sel :: l2 ∧
      (topicBody today now freshId answers (.ok n) tid st).1.selections =
        incSent st.selections s0.id n ∧
      findSelection (topicBody today now freshId answers (.ok n) tid st).1.selections
          today tid = some { s0 with notificationsSent := s0.notificationsSent + n } ∧
      (topicBody today now freshId answers (.ok n) tid st).2 = ⟨1, 1, n, 0⟩ := by
  obtain ⟨sel, l1, l2, hclaim, hdec⟩ := claimQuestion_some_of_cand st.questions tid now hex
  have hanys : st.selections.any (selMatches today tid) = true := by
    unfold findSelection at hsel
    exact List.any_eq_true.mpr
      ⟨s0, List.mem_of_find?_eq_some hsel, List.find?_some hsel⟩
  have hup : upsertDailySelection st.selections freshId today tid sel.id
      (findAnswerId answers sel.id) = st.selections := by
    simp [upsertDailySelection, hanys]
  have hbody : topicBody today now freshId answers (.ok n) tid st =
      (⟨l1 ++ applyClaim now sel :: l2, incSent st.selections s0.id n⟩, ⟨1, 1, n, 0⟩) := by
    unfold topicBody
    rw [hclaim]
    simp only [hup, hsel]
  have hfind : findSelection (incSent st.selections s0.id n) today tid =
      some { s0 with notificationsSent := s0.notificationsSent + n } := by
    unfold findSelection incSent
    unfold findSelection at hsel
    have hpres : ∀ x : DailySelection,
        selMatches today tid
          (if x.id == s0.id then { x with notificationsSent := x.notificationsSent + n } else x)
          = selMatches today tid x := by
      intro x
      cases hx : x.id == s0.id with
      | true => simp [hx, selMatches]
      | false => simp [hx]
    have := find?_map_pres (selMatches today tid)
      (fun x =>
        if x.id == s0.id then { x with notificationsSent := x.notificationsSent + n } else x)
      st.selections hpres s0 hsel
    rw [this]
    simp
  exact ⟨sel, l1, l2, hdec, by rw [hbody], by rw [hbody], by rw [hbody]; exact hfind,
    by rw [hbody]⟩

/-- Witness for `dailyFlow_replay_frame`: a store that already holds today's
selection for the topic, with one active question. -/
theorem dailyFlow_replay_frame_witness :
    (findSelection [⟨50, 20, 7, 1, none, 3⟩] 20 7 = some ⟨50, 20, 7, 1, none, 3⟩) ∧
    (∃ q ∈ ([⟨1, 7, true, none, 0⟩] : List Question), isCand 7 q = true) ∧
    ∃ sel l1 l2,
      ([⟨1, 7, true, none, 0⟩] : List Question) = l1 ++ sel :: l2 ∧
      (topicBody 20 100 51 [] (.ok 2) 7 ⟨[⟨1, 7, true, none, 0⟩], [⟨50, 20, 7, 1, none, 3⟩]⟩).1.questions =
        l1 ++ applyClaim 100 sel :: l2 ∧
      (topicBody 20 100 51 [] (.ok 2) 7 ⟨[⟨1, 7, true, none, 0⟩], [⟨50, 20, 7, 1, none, 3⟩]⟩).1.selections =
        incSent [⟨50, 20, 7, 1, none, 3⟩] 50 2 ∧
      findSelection (topicBody 20 100 51 [] (.ok 2) 7
          ⟨[⟨1, 7, true, none, 0⟩], [⟨50, 20, 7, 1, none, 3⟩]⟩).1.selections 20 7 =
        some { (⟨50, 20, 7, 1, none, 3⟩ : DailySelection) with notificationsSent := 3 + 2 } ∧
      (topicBody 20 100 51 [] (.ok 2) 7
          ⟨[⟨1, 7, true, none, 0⟩], [⟨50, 20, 7, 1, none, 3⟩]⟩).2 = ⟨1, 1, 2, 0⟩ :=
  ⟨by decide, by decide,
    dailyFlow_replay_frame 20 100 51 7 2 [] ⟨[⟨1, 7, true, none, 0⟩], [⟨50, 20, 7, 1, none, 3⟩]⟩
      ⟨50, 20, 7, 1, none, 3⟩ (by decide) (by decide)⟩

/-- Witness for `dailySelection_upsert_unique` on an empty store. -/
theorem dailySelection_upsert_unique_witness :
    countSelections [] 20 7 ≤ 1 ∧
    countSelections (upsertDailySelection [] 9 20 7 1 none) 20 7 = 1 :=
  ⟨by decide, (dailySelection_upsert_unique [] 9 20 7 1 none (by decide)).1⟩

theorem filter_partition_length {α : Type} (p : α → Bool) (l : List α) :
    (l.filter p).length + (l.filter (fun x => ! p x)).length = l.length := by
  induction l with
  | nil => rfl
  | cons a rest ih =>
    cases hp : p a with
    | true =>
      simp [List.filter_cons, hp]
      omega
    | false =>
      simp [List.filter_cons, hp]
      omega

theorem mem_zipWith_exists {α β γ : Type} (f : α → β → γ) (as : List α) (bs : List β) :
    ∀ c ∈ List.zipWith f as bs, ∃ a b, c = f a b := by
  induction as generalizing bs with
  | nil => intro c hc; simp at hc
  | cons a as ih =>
    intro c hc
    cases bs with
    | nil => simp at hc
    | cons b bs =>
      rw [List.zipWith_cons_cons] at hc
      rcases List.mem_cons.mp hc with rfl | hc'
      · exact ⟨a, b, rfl⟩
      · exact ih bs c hc'

/-- Position `j` of a `zipWith` is `f` of position `j` of each input. -/
theorem zipWith_getElem?_eq {α β γ : Type} (f : α → β → γ) :
    ∀ (as : List α) (bs : List β) (j : Nat) (a : α) (b : β),
      as[j]? = some a → bs[j]? = some b →
      (List.zipWith f as bs)[j]? = some (f a b) := by
  intro as
  induction as with
  | nil => intro bs j a b ha _; simp at ha
  | cons x xs ih =>
    intro bs j a b ha hb
    cases bs with
    | nil => simp at hb
    | cons y ys =>
      cases j with
      | zero =>
        simp only [List.getElem?_cons_zero, Option.some.injEq] at ha hb
        subst ha
        subst hb
        rw [List.zipWith_cons_cons, List.getElem?_cons_zero]
      | succ j =>
        rw [List.zipWith_cons_cons]
        simp only [List.getElem?_cons_succ] at ha hb ⊢
        exact ih ys j a b ha hb

theorem chunksGo_join {α : Type} (L : Nat) (hL : 0 < L) :
    ∀ (fuel : Nat) (xs : List α), xs.length ≤ fuel → (chunksGo fuel L xs).flatten = xs := by
  intro fuel
  induction fuel with
  | zero =>
    intro xs hxs
    cases xs with
    | nil => rfl
    | cons x rest => simp at hxs
  | succ fuel ih =>
    intro xs hxs
    cases xs with
    | nil => rfl
    | cons x rest =>
      rw [chunksGo, List.flatten_cons]
      rw [ih ((x :: rest).drop L) (by simp at hxs ⊢; omega)]
      exact List.take_append_drop L (x :: rest)

theorem totalBatches_zero (L : Nat) (hL : 0 < L) : totalBatches 0 L = 0 := by
  unfold totalBatches
  exact Nat.div_eq_of_lt (by omega)

theorem totalBatches_succ (n L : Nat) (hL : 0 < L) (hn : 0 < n) :
    totalBatches n L = totalBatches (n - L) L + 1 := by
  unfold totalBatches
  obtain ⟨m, rfl⟩ : ∃ m, n = m + 1 := ⟨n - 1, by omega⟩
  have hL1 : m + 1 + L - 1 = m + L := by omega
  rw [hL1, Nat.add_div_right m hL]
  by_cases hc : m + 1 ≤ L
  · have h0 : m + 1 - L = 0 := by omega
    rw [h0]
    have : (0 + L - 1) / L = 0 := Nat.div_eq_of_lt (by omega)
    rw [this]
    have : m / L = 0 := Nat.div_eq_of_lt (by omega)
    rw [this]
  · have h1 : m + 1 - L + L - 1 = m - L + L := by omega
    rw [h1, Nat.add_div_right _ hL]
    have h2 : m = m - L + L := by omega
    conv_lhs => rw [h2, Nat.add_div_right _ hL]

theorem chunksGo_length {α : Type} (L : Nat) (hL : 0 < L) :
    ∀ (fuel : Nat) (xs : List α), xs.length ≤ fuel →
      (chunksGo fuel L xs).length = totalBatches xs.length L := by
  intro fuel
  induction fuel with
  | zero =>
    intro xs hxs
    cases xs with
    | nil => simp only [List.length_nil]; rw [totalBatches_zero L hL]; rfl
    | cons x rest => simp at hxs
  | succ fuel ih =>
    intro xs hxs
    cases xs with
    | nil => simp only [List.length_nil]; rw [totalBatches_zero L hL]; rfl
    | cons x rest =>
      rw [chunksGo, List.length_cons,
        ih ((x :: rest).drop L) (by simp at hxs ⊢; omega)]
      rw [totalBatches_succ (x :: rest).length L hL (by simp)]
      simp

theorem chunksGo_sizes {α : Type} (L : Nat) :
    ∀ (fuel : Nat) (xs : List α), ∀ b ∈ chunksGo fuel L xs, b.length ≤ L := by
  intro fuel
  induction fuel with
  | zero =>
    intro xs b hb
    cases xs with
    | nil => simp [chunksGo] at hb
    | cons x rest => simp [chunksGo] at hb
  | succ fuel ih =>
    intro xs b hb
    cases xs with
    | nil => simp [chunksGo] at hb
    | cons x rest =>
      rw [chunksGo] at hb
      rcases List.mem_cons.mp hb with rfl | hb'
      · rw [List.length_take]; omega
      · exact ih _ b hb'

theorem processBatch_status (selId : Nat) (batch : List BatchUserEntry)
    (resp : Except String (List SendResp)) :
    ∀ l ∈ (processBatch selId batch resp).logs,
      l.status = NotificationStatus.sent ∨ l.status = NotificationStatus.failed := by
  intro l hl
  cases resp with
  | error msg =>
    simp only [processBatch] at hl
    obtain ⟨u, _, hu⟩ := List.mem_map.mp hl
    rw [← hu]
    exact Or.inr rfl
  | ok resps =>
    simp only [processBatch] at hl
    obtain ⟨u, r, hur⟩ := mem_zipWith_exists (perRecipientLog selId) batch resps l hl
    cases r with
    | success => rw [hur]; exact Or.inl rfl
    | failure code msg => rw [hur]; exact Or.inr rfl

theorem processBatch_counts (selId : Nat) (batch : List BatchUserEntry)
    (resp : Except String (List SendResp))
    (hok : ∀ rs, resp = .ok rs → rs.length = batch.length) :
    (processBatch selId batch resp).logs.length = batch.length ∧
    (processBatch selId batch resp).sent + (processBatch selId batch resp).failed
      = batch.length := by
  cases resp with
  | error msg =>
    constructor
    · simp [processBatch]
    · simp [processBatch]
  | ok resps =>
    have hlen : resps.length = batch.length := hok resps rfl
    constructor
    · simp only [processBatch]
      rw [List.length_zipWith, hlen]
      omega
    · simp only [processBatch]
      rw [filter_partition_length SendResp.isSuccess resps, hlen]

theorem foldl_combineAcc_spec (accs : List SendAcc) : ∀ (a : SendAcc),
    (accs.foldl combineAcc a).sent = a.sent + (accs.map SendAcc.sent).sum ∧
    (accs.foldl combineAcc a).failed = a.failed + (accs.map SendAcc.failed).sum ∧
    (accs.foldl combineAcc a).logs = a.logs ++ (accs.map SendAcc.logs).flatten := by
  induction accs with
  | nil => intro a; simp
  | cons x rest ih =>
    intro a
    rw [List.foldl_cons]
    obtain ⟨h1, h2, h3⟩ := ih (combineAcc a x)
    refine ⟨?_, ?_, ?_⟩
    · rw [h1]; simp [combineAcc]; omega
    · rw [h2]; simp [combineAcc]; omega
    · rw [h3]; simp [combineAcc]

theorem zipWith_processBatch_sums (selId : Nat) :
    ∀ (bs : List (List BatchUserEntry)) (resps : List (Except String (List SendResp))),
      (∀ p ∈ bs.zip resps, ∀ rs, p.2 = .ok rs → rs.length = p.1.length) →
      resps.length = bs.length →
      ((List.zipWith (processBatch selId) bs resps).map SendAcc.logs).flatten.length
          = (bs.map List.length).sum ∧
      ((List.zipWith (processBatch selId) bs resps).map SendAcc.sent).sum +
          ((List.zipWith (processBatch selId) bs resps).map SendAcc.failed).sum
          = (bs.map List.length).sum := by
  intro bs
  induction bs with
  | nil => intro resps _ _; simp
  | cons b rest ih =>
    intro resps hok hlen
    cases resps with
    | nil => simp at hlen
    | cons r rs =>
      have hb := processBatch_counts selId b r
        (fun rs0 hrs0 => hok (b, r) (by rw [List.zip_cons_cons]; exact List.mem_cons_self _ _) rs0 hrs0)
      have hrec := ih rs
        (fun p hp rs0 hrs0 =>
          hok p (by rw [List.zip_cons_cons]; exact List.mem_cons_of_mem _ hp) rs0 hrs0)
        (by simpa using hlen)
      obtain ⟨hb1, hb2⟩ := hb
      obtain ⟨hr1, hr2⟩ := hrec
      simp only [List.zipWith_cons_cons, List.map_cons, List.flatten_cons,
        List.length_append, List.sum_cons]
      constructor
      · omega
      · omega

/-- Every log row produced by `sendToMultipleUsers` is `sent` or `failed`. -/
theorem sendToMany_logs_status (selId L : Nat) (users : List BatchUserEntry)
    (resps : List (Except String (List SendResp))) :
    ∀ l ∈ (sendToMultipleUsers selId L users resps).logs,
      l.status = NotificationStatus.sent ∨ l.status = NotificationStatus.failed := by
  intro l hl
  unfold sendToMultipleUsers at hl
  obtain ⟨_, _, h3⟩ :=
    foldl_combineAcc_spec (List.zipWith (processBatch selId) (chunks L users) resps) emptyAcc
  rw [h3] at hl
  simp only [emptyAcc, List.nil_append] at hl
  obtain ⟨ls, hls, hlin⟩ := List.mem_flatten.mp hl
  obtain ⟨acc, hacc, hal⟩ := List.mem_map.mp hls
  obtain ⟨b, r, hbr⟩ :=
    mem_zipWith_exists (processBatch selId) (chunks L users) resps acc hacc
  subst hbr
  rw [← hal] at hlin
  exact processBatch_status selId b r l hlin

/-- C7: `sendToMultipleUsers` issues one multicast call per batch —
exactly `ceil(n/L)` batches of at most `L` recipients covering the
recipient list in order — writes exactly one log row per recipient, a
thrown batch yields one `batch_error` `failed` row per recipient of that
batch without stopping later batches, and the returned totals aggregate to
the recipient count.  The produced log list is exactly the in-order
concatenation of the per-batch logs, and within a responded batch the
`j`-th row is the `j`-th recipient's: a `sent` row on that recipient's
success, a `failed` row carrying the `code: message` error string on that
recipient's failure. -/
theorem sendToMany_batching (selId L : Nat) (users : List BatchUserEntry)
    (resps : List (Except String (List SendResp)))
    (hL : 0 < L)
    (hlen : resps.length = (chunks L users).length)
    (hok : ∀ p ∈ (chunks L users).zip resps, ∀ rs, p.2 = .ok rs → rs.length = p.1.length) :
    (chunks L users).length = (users.length + L - 1) / L ∧
    (∀ b ∈ chunks L users, b.length ≤ L) ∧
    (chunks L users).flatten = users ∧
    (sendToMultipleUsers selId L users resps).logs.length = users.length ∧
    (sendToMultipleUsers selId L users resps).sent
        + (sendToMultipleUsers selId L users resps).failed = users.length ∧
    (∀ l ∈ (sendToMultipleUsers selId L users resps).logs,
      l.status = NotificationStatus.sent ∨ l.status = NotificationStatus.failed) ∧
    (∀ (batch : List BatchUserEntry) (msg : String),
      (processBatch selId batch (.error msg)).logs =
        batch.map (fun u => ⟨u.userId, selId, .failed, some ("batch_error: " ++ msg)⟩) ∧
      (processBatch selId batch (.error msg)).failed = batch.length ∧
      (processBatch selId batch (.error msg)).sent = 0) ∧
    (sendToMultipleUsers selId L users resps).logs =
      ((List.zipWith (processBatch selId) (chunks L users) resps).map SendAcc.logs).flatten ∧
    (∀ (batch : List BatchUserEntry) (rs : List SendResp) (j : Nat) (u : BatchUserEntry),
      batch[j]? = some u →
      ((rs[j]? = some .success →
        (processBatch selId batch (.ok rs)).logs[j]?
          = some ⟨u.userId, selId, .sent, none⟩) ∧
       (∀ code msg, rs[j]? = some (.failure code msg) →
        (processBatch selId batch (.ok rs)).logs[j]?
          = some ⟨u.userId, selId, .failed, some (code ++ ": " ++ msg)⟩))) := by
  have hsum : (List.map List.length (chunks L users)).sum = users.length := by
    have hj : (chunks L users).flatten = users := chunksGo_join L hL users.length users (le_refl _)
    calc (List.map List.length (chunks L users)).sum
        = (chunks L users).flatten.length := (List.length_flatten _).symm
      _ = users.length := by rw [hj]
  obtain ⟨hz1, hz2⟩ := zipWith_processBatch_sums selId (chunks L users) resps hok hlen
  obtain ⟨hf1, hf2, hf3⟩ :=
    foldl_combineAcc_spec (List.zipWith (processBatch selId) (chunks L users) resps) emptyAcc
  refine ⟨?_, ?_, ?_, ?_, ?_, ?_, ?_, ?_, ?_⟩
  · exact chunksGo_length L hL users.length users (le_refl _)
  · exact chunksGo_sizes L users.length users
  · exact chunksGo_join L hL users.length users (le_refl _)
  · show ((List.zipWith (processBatch selId) (chunks L users) resps).foldl
      combineAcc emptyAcc).logs.length = users.length
    rw [hf3]
    simp only [emptyAcc, List.nil_append]
    rw [hz1, hsum]
  · show ((List.zipWith (processBatch selId) (chunks L users) resps).foldl
        combineAcc emptyAcc).sent
      + ((List.zipWith (processBatch selId) (chunks L users) resps).foldl
        combineAcc emptyAcc).failed = users.length
    rw [hf1, hf2]
    simp only [emptyAcc]
    omega
  · exact sendToMany_logs_status selId L users resps
  · intro batch msg
    refine ⟨rfl, rfl, rfl⟩
  · show ((List.zipWith (processBatch selId) (chunks L users) resps).foldl
      combineAcc emptyAcc).logs = _
    rw [hf3]
    simp only [emptyAcc, List.nil_append]
  · intro batch rs j u hu
    have hzip : (processBatch selId batch (.ok rs)).logs
        = List.zipWith (perRecipientLog selId) batch rs := rfl
    constructor
    · intro hr
      rw [hzip, zipWith_getElem?_eq (perRecipientLog selId) batch rs j u .success hu hr]
      rfl
    · intro code msg hr
      rw [hzip,
        zipWith_getElem?_eq (perRecipientLog selId) batch rs j u (.failure code msg) hu hr]
      rfl

/-- Witness for `sendToMany_batching`: 3 recipients, batch limit 2, first
batch throws (two `batch_error` rows), second succeeds (one per-recipient
`sent` row) — 2 batches, 3 log rows in order. -/
theorem sendToMany_batching_witness :
    0 < 2 ∧
    ([Except.error "down", Except.ok [SendResp.success]]
        : List (Except String (List SendResp))).length
      = (chunks 2 [(⟨1, "a"⟩ : BatchUserEntry), ⟨2, "b"⟩, ⟨3, "c"⟩]).length ∧
    (chunks 2 [(⟨1, "a"⟩ : BatchUserEntry), ⟨2, "b"⟩, ⟨3, "c"⟩]).length = (3 + 2 - 1) / 2 ∧
    (sendToMultipleUsers 9 2 [⟨1, "a"⟩, ⟨2, "b"⟩, ⟨3, "c"⟩]
      [.error "down", .ok [.success]]).logs.length = 3 ∧
    (sendToMultipleUsers 9 2 [⟨1, "a"⟩, ⟨2, "b"⟩, ⟨3, "c"⟩]
        [.error "down", .ok [.success]]).sent
      + (sendToMultipleUsers 9 2 [⟨1, "a"⟩, ⟨2, "b"⟩, ⟨3, "c"⟩]
        [.error "down", .ok [.success]]).failed = 3 ∧
    (processBatch 9 [(⟨3, "c"⟩ : BatchUserEntry)] (.ok [.success])).logs[0]?
      = some ⟨3, 9, .sent, none⟩ ∧
    (sendToMultipleUsers 9 2 [⟨1, "a"⟩, ⟨2, "b"⟩, ⟨3, "c"⟩]
        [.error "down", .ok [.success]]).logs
      = [⟨1, 9, .failed, some ("batch_error: " ++ "down")⟩,
         ⟨2, 9, .failed, some ("batch_error: " ++ "down")⟩,
         ⟨3, 9, .sent, none⟩] := by
  have hok : ∀ p ∈ (chunks 2 [(⟨1, "a"⟩ : BatchUserEntry), ⟨2, "b"⟩, ⟨3, "c"⟩]).zip
      ([Except.error "down", Except.ok [SendResp.success]]
        : List (Except String (List SendResp))),
      ∀ rs, p.2 = .ok rs → rs.length = p.1.length := by
    intro p hp rs hrs
    have hch : chunks 2 [(⟨1, "a"⟩ : BatchUserEntry), ⟨2, "b"⟩, ⟨3, "c"⟩]
        = [[⟨1, "a"⟩, ⟨2, "b"⟩], [⟨3, "c"⟩]] := rfl
    rw [hch] at hp
    simp only [List.zip_cons_cons, List.zip_nil_right] at hp
    rcases List.mem_cons.mp hp with rfl | hp'
    · cases hrs
    · rcases List.mem_cons.mp hp' with rfl | hp''
      · injection hrs with h; rw [← h]; rfl
      · simp at hp''
  have h := sendToMany_batching 9 2 [⟨1, "a"⟩, ⟨2, "b"⟩, ⟨3, "c"⟩]
    [.error "down", .ok [.success]] (by decide) (by decide) hok
  have hrow := (h.2.2.2.2.2.2.2.2 [⟨3, "c"⟩] [.success] 0 ⟨3, "c"⟩ rfl).1 rfl
  exact ⟨by decide, by decide, h.1, h.2.2.2.1, h.2.2.2.2.1, hrow, by decide⟩

/-- C9: every `NotificationLog` row produced by `sendToUser` or
`sendToMultipleUsers` ends `sent` or `failed` (never `delivered`, never a
persisted `pending`), and `sendToUser` only appends its new row to the log
store, leaving existing rows untouched. -/
theorem notificationLog_state_machine :
    (∀ (userId selId : Nat) (gw : Except (String × String) String)
        (logs : List NotificationLog) (users : List User),
      (sendToUser userId selId gw logs users).2.1
          = logs ++ [(sendToUser userId selId gw logs users).1] ∧
      ((sendToUser userId selId gw logs users).1.status = NotificationStatus.sent ∨
        (sendToUser userId selId gw logs users).1.status = NotificationStatus.failed)) ∧
    (∀ (selId L : Nat) (users : List BatchUserEntry)
        (resps : List (Except String (List SendResp))),
      ∀ l ∈ (sendToMultipleUsers selId L users resps).logs,
        l.status = NotificationStatus.sent ∨ l.status = NotificationStatus.failed) ∧
    (∀ st : NotificationStatus,
      (st = NotificationStatus.sent ∨ st = NotificationStatus.failed) →
        st ≠ NotificationStatus.delivered ∧ st ≠ NotificationStatus.pending) := by
  refine ⟨?_, ?_, ?_⟩
  · intro userId selId gw logs users
    cases gw with
    | ok m =>
      constructor
      · rfl
      · exact Or.inl rfl
    | error p =>
      obtain ⟨code, msg⟩ := p
      constructor
      · rfl
      · exact Or.inr rfl
  · exact sendToMany_logs_status
  · intro st h
    rcases h with rfl | rfl
    · exact ⟨(fun h => by cases h), (fun h => by cases h)⟩
    · exact ⟨(fun h => by cases h), (fun h => by cases h)⟩

/-- Witness for `notificationLog_state_machine`: a failed single send with
an invalid-token code appends one `failed` row. -/
theorem notificationLog_state_machine_witness :
    (sendToUser 1 2 (.error ("messaging/invalid-registration-token", "gone")) [] []).2.1
      = [] ++ [(sendToUser 1 2
          (.error ("messaging/invalid-registration-token", "gone")) [] []).1] ∧
    ((sendToUser 1 2 (.error ("messaging/invalid-registration-token", "gone")) [] []).1.status
        = NotificationStatus.sent ∨
      (sendToUser 1 2 (.error ("messaging/invalid-registration-token", "gone")) [] []).1.status
        = NotificationStatus.failed) :=
  notificationLog_state_machine.1 1 2
    (.error ("messaging/invalid-registration-token", "gone")) [] []

/-- C2 fails on the code: a user whose token was flagged `'__invalid__'`
still passes the recipient query (`$ne: null` does not exclude the
sentinel), so the recipient set is not the sentinel-free set the claim
describes. -/
theorem sendDaily_sentinel_included_counterexample :
    eligibleUsers [⟨1, true, [7], some invalidSentinel, ⟨0, none⟩⟩] 7 =
      [⟨1, true, [7], some invalidSentinel, ⟨0, none⟩⟩] ∧
    claimedEligibleUsers [⟨1, true, [7], some invalidSentinel, ⟨0, none⟩⟩] 7 = [] ∧
    eligibleUsers [⟨1, true, [7], some invalidSentinel, ⟨0, none⟩⟩] 7 ≠
      claimedEligibleUsers [⟨1, true, [7], some invalidSentinel, ⟨0, none⟩⟩] 7 := by
  refine ⟨by decide, by decide, by decide⟩

/-- C2 (amended): the recipient set is exactly the active users subscribed
to the topic whose token is non-null — the `'__invalid__'` sentinel is not
excluded by the query (flagged users drop out only once the cleanup job
nulls their token) — and an empty recipient set returns
`{sent: 0, failed: 0}` without dispatching. -/
theorem sendDaily_eligible_amended (users : List User) (tid selId L : Nat)
    (resps : List (Except String (List SendResp))) :
    (∀ u, u ∈ eligibleUsers users tid ↔
      (u ∈ users ∧ u.isActive = true ∧ u.subscribedTopics.contains tid = true ∧
        u.fcmToken.isSome = true)) ∧
    (eligibleUsers users tid = [] →
      sendDailyNotifications users tid selId L resps = emptyAcc ∧
      emptyAcc.sent = 0 ∧ emptyAcc.failed = 0) := by
  constructor
  · intro u
    constructor
    · intro hu
      obtain ⟨hmem, hp⟩ := List.mem_filter.mp hu
      simp only [Bool.and_eq_true] at hp
      exact ⟨hmem, hp.1.1, hp.1.2, hp.2⟩
    · intro ⟨hmem, h1, h2, h3⟩
      exact List.mem_filter.mpr ⟨hmem, by rw [h1, h2, h3]; rfl⟩
  · intro h
    refine ⟨?_, rfl, rfl⟩
    unfold sendDailyNotifications
    simp [h]

/-- Witness for `sendDaily_eligible_amended` on an empty user store. -/
theorem sendDaily_eligible_amended_witness :
    eligibleUsers [] 7 = [] ∧ sendDailyNotifications [] 7 1 500 [] = emptyAcc :=
  ⟨rfl, ((sendDaily_eligible_amended [] 7 1 500 []).2 rfl).1⟩

theorem markAsReadDays_inv (sels : List DailySelection) (userId selId : Nat)
    (s0 : DailySelection) (hsel : sels.find? (fun s => s.id == selId) = some s0) :
    ∀ (n day : Nat) (users : List User) (u : User),
      0 < day →
      users.find? (fun v => v.id == userId) = some u →
      u.streak.lastActiveDate = some (day - 1) →
      ∃ u', (markAsReadDays sels userId selId day n users).find?
              (fun v => v.id == userId) = some u' ∧
        u'.streak.count = u.streak.count + n ∧
        u'.streak.lastActiveDate = some (day - 1 + n) := by
  intro n
  induction n with
  | zero =>
    intro day users u _ hu hla
    exact ⟨u, hu, by omega, by rw [hla, Nat.add_zero]⟩
  | succ n ih =>
    intro day users u hday hu hla
    have hstep : markAsRead sels users userId selId day =
        .ok (users.map (fun v =>
          if v.id == userId then { v with streak := ⟨u.streak.count + 1, some day⟩ } else v)) := by
      have h1 : ¬ u.streak.lastActiveDate = some day := by
        rw [hla]; intro h; injection h with h; omega
      unfold markAsRead
      simp only [hsel, hu]
      rw [if_neg h1, if_pos hla]
    have hmap : (users.map (fun v =>
        if v.id == userId then { v with streak := ⟨u.streak.count + 1, some day⟩ } else v)).find?
          (fun v => v.id == userId)
        = some { u with streak := ⟨u.streak.count + 1, some day⟩ } := by
      have hpres : ∀ x : User,
          (fun v : User => v.id == userId)
            (if x.id == userId then { x with streak := ⟨u.streak.count + 1, some day⟩ } else x)
          = (fun v : User => v.id == userId) x := by
        intro x
        cases hx : x.id == userId with
        | true => simp [hx]
        | false => simp [hx]
      have := find?_map_pres (fun v : User => v.id == userId)
        (fun x => if x.id == userId then { x with streak := ⟨u.streak.count + 1, some day⟩ } else x)
        users hpres u hu
      rw [this]
      have hbeq : (u.id == userId) = true := by
        have h := List.find?_some hu
        simpa using h
      simp [hbeq]
    rw [markAsReadDays, hstep]
    obtain ⟨u', hu', hc, hl⟩ := ih (day + 1)
      (users.map (fun v =>
        if v.id == userId then { v with streak := ⟨u.streak.count + 1, some day⟩ } else v))
      { u with streak := ⟨u.streak.count + 1, some day⟩ }
      (by omega) hmap (by simp)
    refine ⟨u', hu', ?_, ?_⟩
    · rw [hc]
      show u.streak.count + 1 + n = u.streak.count + (n + 1)
      omega
    · rw [hl]
      show some (day + 1 - 1 + n) = some (day - 1 + (n + 1))
      congr 1
      omega

theorem find?_update_user (users : List User) (userId : Nat) (u : User) (st : Streak)
    (hu : users.find? (fun v => v.id == userId) = some u) :
    (users.map (fun v => if v.id == userId then { v with streak := st } else v)).find?
      (fun v => v.id == userId) = some { u with streak := st } := by
  have hpres : ∀ x : User,
      (fun v : User => v.id == userId)
        (if x.id == userId then { x with streak := st } else x)
      = (fun v : User => v.id == userId) x := by
    intro x
    cases hx : x.id == userId with
    | true => simp [hx]
    | false => simp [hx]
  have := find?_map_pres (fun v : User => v.id == userId)
    (fun x => if x.id == userId then { x with streak := st } else x) users hpres u hu
  rw [this]
  have hbeq : (u.id == userId) = true := by
    have h := List.find?_some hu
    simpa using h
  simp [hbeq]

theorem markAsRead_reset_eq (sels : List DailySelection) (users : List User)
    (userId selId today : Nat) (s0 : DailySelection) (u : User)
    (hs : sels.find? (fun s => s.id == selId) = some s0)
    (hu : users.find? (fun v => v.id == userId) = some u)
    (h1 : u.streak.lastActiveDate ≠ some today)
    (h2 : u.streak.lastActiveDate ≠ some (today - 1)) :
    markAsRead sels users userId selId today = .ok (users.map (fun v =>
      if v.id == userId then { v with streak := ⟨1, some today⟩ } else v)) := by
  unfold markAsRead
  simp only [hs, hu]
  rw [if_neg h1, if_neg h2]

/-- C4: `markAsRead` is `NotFound` when the selection or the user is
missing; with `lastActiveDate` equal to today it writes nothing; equal to
yesterday it increments the count; otherwise it resets the count to 1 —
always persisting `lastActiveDate = today` when it writes; and `N`
consecutive daily calls starting from a reset state yield a streak of `N`. -/
theorem markAsRead_streak (sels : List DailySelection) (users : List User)
    (userId selId today : Nat) :
    (sels.find? (fun s => s.id == selId) = none →
      markAsRead sels users userId selId today = .error "Daily selection not found") ∧
    (∀ s0, sels.find? (fun s => s.id == selId) = some s0 →
      users.find? (fun v => v.id == userId) = none →
      markAsRead sels users userId selId today = .error "User not found") ∧
    (∀ s0 u, sels.find? (fun s => s.id == selId) = some s0 →
      users.find? (fun v => v.id == userId) = some u →
      ((u.streak.lastActiveDate = some today →
          markAsRead sels users userId selId today = .ok users) ∧
       (u.streak.lastActiveDate ≠ some today →
        u.streak.lastActiveDate = some (today - 1) →
          markAsRead sels users userId selId today = .ok (users.map (fun v =>
            if v.id == userId then { v with streak := ⟨u.streak.count + 1, some today⟩ }
            else v))) ∧
       (u.streak.lastActiveDate ≠ some today →
        u.streak.lastActiveDate ≠ some (today - 1) →
          markAsRead sels users userId selId today = .ok (users.map (fun v =>
            if v.id == userId then { v with streak := ⟨1, some today⟩ } else v))))) ∧
    (∀ (day0 N : Nat) (s0 : DailySelection) (u : User),
      0 < day0 → 1 ≤ N →
      sels.find? (fun s => s.id == selId) = some s0 →
      users.find? (fun v => v.id == userId) = some u →
      (∀ d, u.streak.lastActiveDate = some d → d + 1 < day0) →
      ∃ u', (markAsReadDays sels userId selId day0 N users).find?
          (fun v => v.id == userId) = some u' ∧
        u'.streak.count = N ∧ u'.streak.lastActiveDate = some (day0 + N - 1)) := by
  refine ⟨?_, ?_, ?_, ?_⟩
  · intro h
    unfold markAsRead
    simp only [h]
  · intro s0 h1 h2
    unfold markAsRead
    simp only [h1, h2]
  · intro s0 u hs hu
    refine ⟨?_, ?_, ?_⟩
    · intro hla
      unfold markAsRead
      simp only [hs, hu]
      rw [if_pos hla]
    · intro h1 h2
      unfold markAsRead
      simp only [hs, hu]
      rw [if_neg h1, if_pos h2]
    · intro h1 h2
      exact markAsRead_reset_eq sels users userId selId today s0 u hs hu h1 h2
  · intro day0 N s0 u hday hN hs hu hgap
    obtain ⟨M, rfl⟩ : ∃ M, N = M + 1 := ⟨N - 1, by omega⟩
    have h1 : u.streak.lastActiveDate ≠ some day0 := by
      intro h
      have := hgap day0 h
      omega
    have h2 : u.streak.lastActiveDate ≠ some (day0 - 1) := by
      intro h
      have := hgap (day0 - 1) h
      omega
    have hstep := markAsRead_reset_eq sels users userId selId day0 s0 u hs hu h1 h2
    have hfind := find?_update_user users userId u ⟨1, some day0⟩ hu
    rw [markAsReadDays, hstep]
    obtain ⟨u', hu', hc, hl⟩ := markAsReadDays_inv sels userId selId s0 hs M (day0 + 1)
      (users.map (fun v => if v.id == userId then { v with streak := ⟨1, some day0⟩ } else v))
      { u with streak := ⟨1, some day0⟩ } (by omega) hfind (by simp)
    refine ⟨u', hu', ?_, ?_⟩
    · rw [hc]
      show 1 + M = M + 1
      omega
    · rw [hl]
      show some (day0 + 1 - 1 + M) = some (day0 + (M + 1) - 1)
      congr 1

/-- Witness for `markAsRead_streak`: three consecutive daily calls from a
fresh user yield a streak of 3. -/
theorem markAsRead_streak_witness :
    (List.find? (fun s => s.id == 5) [(⟨5, 20, 7, 1, none, 0⟩ : DailySelection)]
      = some ⟨5, 20, 7, 1, none, 0⟩) ∧
    (List.find? (fun v => v.id == 1) [(⟨1, true, [], none, ⟨0, none⟩⟩ : User)]
      = some ⟨1, true, [], none, ⟨0, none⟩⟩) ∧
    ∃ u', (markAsReadDays [⟨5, 20, 7, 1, none, 0⟩] 1 5 2 3
        [⟨1, true, [], none, ⟨0, none⟩⟩]).find? (fun v => v.id == 1) = some u' ∧
      u'.streak.count = 3 ∧ u'.streak.lastActiveDate = some 4 :=
  ⟨by decide, by decide,
    (markAsRead_streak [⟨5, 20, 7, 1, none, 0⟩] [⟨1, true, [], none, ⟨0, none⟩⟩]
        1 5 0).2.2.2 2 3 ⟨5, 20, 7, 1, none, 0⟩ ⟨1, true, [], none, ⟨0, none⟩⟩
      (by decide) (by decide) (by decide) (by decide)
      (fun d h => by cases h)⟩

theorem genGo_ok_eq (api : Nat → Except ApiError GenerateAnswerResult)
    (attempt r : Nat) (res : GenerateAnswerResult) (hA : api attempt = .ok res) :
    genGo api attempt (r + 1) = (1, [], .ok res) := by
  rw [genGo, hA]

theorem genGo_error_eq (api : Nat → Except ApiError GenerateAnswerResult)
    (attempt r : Nat) (e : ApiError) (hA : api attempt = .error e) :
    genGo api attempt (r + 1) =
      if isRetryableError e = false ∨ r = 0 then (1, [], .error e)
      else ((genGo api (attempt + 1) r).1 + 1,
        BASE_RETRY_DELAY_MS * 2 ^ (attempt - 1) :: (genGo api (attempt + 1) r).2.1,
        (genGo api (attempt + 1) r).2.2) := by
  rw [genGo, hA]

theorem genGo_calls_le (api : Nat → Except ApiError GenerateAnswerResult) :
    ∀ (remaining attempt : Nat), (genGo api attempt remaining).1 ≤ remaining := by
  intro remaining
  induction remaining with
  | zero => intro attempt; exact Nat.le_refl 0
  | succ r ih =>
    intro attempt
    cases hA : api attempt with
    | ok res =>
      rw [genGo_ok_eq api attempt r res hA]
      exact Nat.le_add_left 1 r
    | error e =>
      rw [genGo_error_eq api attempt r e hA]
      by_cases hc : isRetryableError e = false ∨ r = 0
      · rw [if_pos hc]
        exact Nat.le_add_left 1 r
      · rw [if_neg hc]
        have := ih (attempt + 1)
        show (genGo api (attempt + 1) r).1 + 1 ≤ r + 1
        omega

/-- C5: `generateAnswer` makes at most 3 calls; a non-retryable first error
is surfaced immediately with no wait; retryability is exactly 429 ∨ 5xx ∨
transient network code; and after two retryable failures the third call is
made after waits of 1s then 2s, its outcome — success or the last error —
being returned as is. -/
theorem generateAnswer_retry (api : Nat → Except ApiError GenerateAnswerResult)
    (e1 e2 : ApiError)
    (h1 : isRetryableError e1 = true) (h2 : isRetryableError e2 = true)
    (hc1 : api 1 = .error e1) (hc2 : api 2 = .error e2) :
    ((generateAnswer api).1 ≤ 3) ∧
    (∀ (api0 : Nat → Except ApiError GenerateAnswerResult) (e : ApiError),
      api0 1 = .error e → isRetryableError e = false →
      generateAnswer api0 = (1, [], .error e)) ∧
    (∀ e : ApiError, isRetryableError e = true ↔
      (e.status = some 429 ∨ (∃ s, e.status = some s ∧ 500 ≤ s) ∨
       e.code = some "ECONNRESET" ∨ e.code = some "ETIMEDOUT" ∨
       e.code = some "ENOTFOUND" ∨ e.code = some "EAI_AGAIN")) ∧
    generateAnswer api = (3, [1000, 2000], api 3) := by
  refine ⟨genGo_calls_le api MAX_RETRIES 1, ?_, ?_, ?_⟩
  · intro api0 e hE hR
    show genGo api0 1 MAX_RETRIES = (1, [], .error e)
    rw [MAX_RETRIES]
    show genGo api0 1 (2 + 1) = (1, [], .error e)
    rw [genGo_error_eq api0 1 2 e hE, if_pos (Or.inl hR)]
  · intro e
    unfold isRetryableError
    constructor
    · intro h
      by_cases hs : e.status == some 429
      · exact Or.inl (by simpa using hs)
      · rw [if_neg (by simpa using hs)] at h
        by_cases h5 : (match e.status with | some s => decide (500 ≤ s) | none => false) = true
        · refine Or.inr (Or.inl ?_)
          cases hst : e.status with
          | none => rw [hst] at h5; simp at h5
          | some s =>
            rw [hst] at h5
            simp at h5
            exact ⟨s, rfl, h5⟩
        · rw [if_neg h5] at h
          simp only [Bool.or_eq_true, beq_iff_eq] at h
          rcases h with ((ha | hb) | hc) | hd
          · exact Or.inr (Or.inr (Or.inl ha))
          · exact Or.inr (Or.inr (Or.inr (Or.inl hb)))
          · exact Or.inr (Or.inr (Or.inr (Or.inr (Or.inl hc))))
          · exact Or.inr (Or.inr (Or.inr (Or.inr (Or.inr hd))))
    · intro h
      rcases h with h429 | ⟨s, hs, h5⟩ | hcode | hcode | hcode | hcode
      · rw [if_pos (by simp [h429])]
      · by_cases hs429 : e.status == some 429
        · rw [if_pos hs429]
        · rw [if_neg hs429, if_pos (by rw [hs]; simpa using h5)]
      all_goals {
        by_cases hs429 : e.status == some 429
        · rw [if_pos hs429]
        · rw [if_neg hs429]
          by_cases h5 : (match e.status with | some s => decide (500 ≤ s) | none => false) = true
          · rw [if_pos h5]
          · rw [if_neg h5]
            simp [hcode]
      }
  · have h3 : genGo api 3 1 = (1, [], api 3) := by
      cases hA : api 3 with
      | ok res => rw [genGo_ok_eq api 3 0 res hA]
      | error e =>
        show genGo api 3 (0 + 1) = _
        rw [genGo_error_eq api 3 0 e hA, if_pos (Or.inr rfl)]
    show genGo api 1 (2 + 1) = (3, [1000, 2000], api 3)
    rw [genGo_error_eq api 1 2 e1 hc1, if_neg (by simp [h1])]
    show ((genGo api 2 (1 + 1)).1 + 1, 1000 * 2 ^ 0 :: (genGo api 2 (1 + 1)).2.1,
      (genGo api 2 (1 + 1)).2.2) = (3, [1000, 2000], api 3)
    rw [genGo_error_eq api 2 1 e2 hc2, if_neg (by simp [h2])]
    show ((genGo api 3 1).1 + 1 + 1,
      1000 * 2 ^ 0 :: 1000 * 2 ^ 1 :: (genGo api 3 1).2.1,
      (genGo api 3 1).2.2) = (3, [1000, 2000], api 3)
    rw [h3]
    norm_num

/-- Witness for `generateAnswer_retry`: two 429 responses then a success —
exactly 3 calls, waits of 1s and 2s, the successful text returned. -/
theorem generateAnswer_retry_witness :
    isRetryableError ⟨some 429, none, "rate limited"⟩ = true ∧
    generateAnswer (fun n =>
      if n = 3 then (.ok ⟨"answer text", 42⟩ : Except ApiError GenerateAnswerResult)
      else .error ⟨some 429, none, "rate limited"⟩)
      = (3, [1000, 2000], .ok ⟨"answer text", 42⟩) := by
  refine ⟨by decide, ?_⟩
  have h := (generateAnswer_retry
    (fun n =>
      if n = 3 then (.ok ⟨"answer text", 42⟩ : Except ApiError GenerateAnswerResult)
      else .error ⟨some 429, none, "rate limited"⟩)
    ⟨some 429, none, "rate limited"⟩ ⟨some 429, none, "rate limited"⟩
    (by decide) (by decide) rfl rfl).2.2.2
  simpa using h

theorem upsertAnswerGo_none_iff (qid now : Nat) (modelName : String)
    (r : GenerateAnswerResult) : ∀ answers : List AiAnswer,
    upsertAnswerGo qid now modelName r answers = none ↔
      answers.find? (fun a => a.questionId == qid) = none := by
  intro answers
  induction answers with
  | nil => constructor <;> intro <;> rfl
  | cons a rest ih =>
    cases hq : a.questionId == qid with
    | true =>
      constructor
      · intro h
        rw [upsertAnswerGo, if_pos hq] at h
        cases h
      · intro h
        rw [List.find?_cons, hq] at h
        cases h
    | false =>
      constructor
      · intro h
        rw [upsertAnswerGo, if_neg (by simp [hq])] at h
        rw [List.find?_cons, hq]
        cases hgo : upsertAnswerGo qid now modelName r rest with
        | none => exact ih.mp hgo
        | some p =>
          obtain ⟨doc, rest'⟩ := p
          rw [hgo] at h
          cases h
      · intro h
        rw [List.find?_cons, hq] at h
        rw [upsertAnswerGo, if_neg (by simp [hq])]
        rw [ih.mpr h]

theorem upsertAnswerGo_some (qid now : Nat) (modelName : String)
    (r : GenerateAnswerResult) : ∀ (answers : List AiAnswer) (doc : AiAnswer)
    (answers' : List AiAnswer),
    upsertAnswerGo qid now modelName r answers = some (doc, answers') →
      (∃ old, answers.find? (fun a => a.questionId == qid) = some old ∧
        doc = refreshAnswer now modelName r old) ∧
      answers'.find? (fun a => a.questionId == qid && ! a.isStale) = some doc := by
  intro answers
  induction answers with
  | nil => intro doc answers' h; cases h
  | cons a rest ih =>
    intro doc answers' h
    cases hq : a.questionId == qid with
    | true =>
      rw [upsertAnswerGo, if_pos hq] at h
      injection h with h
      injection h with h1 h2
      subst h1
      subst h2
      refine ⟨⟨a, ?_, rfl⟩, ?_⟩
      · rw [List.find?_cons, hq]
      · rw [List.find?_cons]
        have : ((refreshAnswer now modelName r a).questionId == qid
            && ! (refreshAnswer now modelName r a).isStale) = true := by
          simp [refreshAnswer, hq]
        rw [this]
    | false =>
      rw [upsertAnswerGo, if_neg (by simp [hq])] at h
      cases hgo : upsertAnswerGo qid now modelName r rest with
      | none => rw [hgo] at h; cases h
      | some p =>
        obtain ⟨doc0, rest'⟩ := p
        rw [hgo] at h
        injection h with h
        injection h with h1 h2
        subst h1
        subst h2
        obtain ⟨⟨old, hold, hdoc⟩, hfind⟩ := ih doc0 rest' hgo
        refine ⟨⟨old, ?_, hdoc⟩, ?_⟩
        · rw [List.find?_cons, hq]
          exact hold
        · rw [List.find?_cons]
          have : (a.questionId == qid && ! a.isStale) = false := by simp [hq]
          rw [this]
          exact hfind

theorem find?_qid_none_weaken (answers : List AiAnswer) (qid : Nat)
    (h : answers.find? (fun a => a.questionId == qid) = none) :
    answers.find? (fun a => a.questionId == qid && ! a.isStale) = none := by
  refine List.find?_eq_none.mpr (fun a ha => ?_)
  have := List.find?_eq_none.mp h a ha
  simp only [Bool.not_eq_true] at this ⊢
  simp [this]

/-- C6: `generateForQuestion` is idempotent — an existing non-stale answer
is returned unchanged with zero external calls; a missing question is
`NotFound`; otherwise the answer is upserted (insert when absent, overwrite
of text/timestamp/model/token-count with the stale flag cleared when
present, its identity preserved) with one external call, and an immediate
second call is a pure cache hit, so the two calls make exactly one
external call in total. -/
theorem generateForQuestion_idempotent (st : GenState)
    (gen gen2 : Except ApiError GenerateAnswerResult) (modelName : String)
    (now now2 freshId freshId2 qid : Nat) :
    (∀ a0, st.answers.find? (fun a => a.questionId == qid && ! a.isStale) = some a0 →
      generateForQuestion st gen modelName now freshId qid = .ok (a0, st.answers, 0)) ∧
    (st.answers.find? (fun a => a.questionId == qid && ! a.isStale) = none →
      st.questions.find? (fun q => q.id == qid) = none →
      generateForQuestion st gen modelName now freshId qid = .error "Question not found") ∧
    (∀ r q0, st.answers.find? (fun a => a.questionId == qid && ! a.isStale) = none →
      st.questions.find? (fun q => q.id == qid) = some q0 →
      gen = .ok r →
      ∃ doc answers',
        generateForQuestion st gen modelName now freshId qid = .ok (doc, answers', 1) ∧
        doc.answer = r.answer ∧ doc.generatedAt = now ∧
        doc.model = modelName ∧ doc.tokenCount = r.tokenCount ∧ doc.isStale = false ∧
        (st.answers.find? (fun a => a.questionId == qid) = none →
          doc.id = freshId ∧ doc.questionId = qid ∧ answers' = st.answers ++ [doc]) ∧
        (∀ old, st.answers.find? (fun a => a.questionId == qid) = some old →
          doc = refreshAnswer now modelName r old ∧ doc.id = old.id) ∧
        generateForQuestion ⟨answers', st.questions⟩ gen2 modelName now2 freshId2 qid =
          .ok (doc, answers', 0)) := by
  refine ⟨?_, ?_, ?_⟩
  · intro a0 h
    unfold generateForQuestion
    rw [h]
  · intro h1 h2
    unfold generateForQuestion
    rw [h1, h2]
  · intro r q0 h1 h2 hgen
    subst hgen
    cases hgo : upsertAnswerGo qid now modelName r st.answers with
    | none =>
      have hfq : st.answers.find? (fun a => a.questionId == qid) = none :=
        (upsertAnswerGo_none_iff qid now modelName r st.answers).mp hgo
      refine ⟨⟨freshId, qid, r.answer, now, modelName, r.tokenCount, false⟩,
        st.answers ++ [⟨freshId, qid, r.answer, now, modelName, r.tokenCount, false⟩],
        ?_, rfl, rfl, rfl, rfl, rfl, fun _ => ⟨rfl, rfl, rfl⟩, ?_, ?_⟩
      · unfold generateForQuestion
        rw [h1, h2]
        show Except.ok ((upsertAnswer st.answers qid freshId now modelName r).1,
          (upsertAnswer st.answers qid freshId now modelName r).2, 1) = _
        unfold upsertAnswer
        rw [hgo]
      · intro old hold
        rw [hfq] at hold
        cases hold
      · have hnone2 : (st.answers ++
            [(⟨freshId, qid, r.answer, now, modelName, r.tokenCount, false⟩ : AiAnswer)]).find?
              (fun a => a.questionId == qid && ! a.isStale)
            = some ⟨freshId, qid, r.answer, now, modelName, r.tokenCount, false⟩ := by
          rw [find?_append_of_none _ _ _ (find?_qid_none_weaken st.answers qid hfq)]
          rw [List.find?_cons]
          have : ((⟨freshId, qid, r.answer, now, modelName, r.tokenCount, false⟩
              : AiAnswer).questionId == qid
              && ! (⟨freshId, qid, r.answer, now, modelName, r.tokenCount, false⟩
              : AiAnswer).isStale) = true := by simp
          rw [this]
        unfold generateForQuestion
        rw [hnone2]
    | some p =>
      obtain ⟨doc0, answers0⟩ := p
      obtain ⟨⟨old, hold, hdoc⟩, hfind⟩ :=
        upsertAnswerGo_some qid now modelName r st.answers doc0 answers0 hgo
      refine ⟨doc0, answers0, ?_, by rw [hdoc]; rfl, by rw [hdoc]; rfl, by rw [hdoc]; rfl,
        by rw [hdoc]; rfl, by rw [hdoc]; rfl, ?_, ?_, ?_⟩
      · unfold generateForQuestion
        rw [h1, h2]
        show Except.ok ((upsertAnswer st.answers qid freshId now modelName r).1,
          (upsertAnswer st.answers qid freshId now modelName r).2, 1) = _
        unfold upsertAnswer
        rw [hgo]
      · intro hnone
        rw [hnone] at hold
        cases hold
      · intro old' hold'
        rw [hold] at hold'
        injection hold' with hold'
        subst hold'
        exact ⟨hdoc, by rw [hdoc]; rfl⟩
      · unfold generateForQuestion
        rw [hfind]

/-- Witness for `generateForQuestion_idempotent`: no cached answer, one
question, successful generation — first call generates, second is a cache
hit. -/
theorem generateForQuestion_idempotent_witness :
    (([] : List AiAnswer).find? (fun a => a.questionId == 1 && ! a.isStale) = none) ∧
    (([⟨1, 9, true, none, 0⟩] : List Question).find? (fun q => q.id == 1)
      = some ⟨1, 9, true, none, 0⟩) ∧
    ∃ doc answers',
      generateForQuestion ⟨[], [⟨1, 9, true, none, 0⟩]⟩ (.ok ⟨"txt", 5⟩) "gpt-4" 30 77 1
        = .ok (doc, answers', 1) ∧
      doc.answer = "txt" ∧ doc.generatedAt = 30 ∧ doc.model = "gpt-4" ∧
      doc.tokenCount = 5 ∧ doc.isStale = false ∧
      (([] : List AiAnswer).find? (fun a => a.questionId == 1) = none →
        doc.id = 77 ∧ doc.questionId = 1 ∧ answers' = [] ++ [doc]) ∧
      (∀ old, ([] : List AiAnswer).find? (fun a => a.questionId == 1) = some old →
        doc = refreshAnswer 30 "gpt-4" ⟨"txt", 5⟩ old ∧ doc.id = old.id) ∧
      generateForQuestion ⟨answers', [⟨1, 9, true, none, 0⟩]⟩ (.ok ⟨"other", 9⟩)
          "gpt-4" 31 78 1 = .ok (doc, answers', 0) := by
  have hq : ([(⟨1, 9, true, none, 0⟩ : Question)]).find? (fun q => q.id == 1)
      = some ⟨1, 9, true, none, 0⟩ := by decide
  refine ⟨rfl, hq, ?_⟩
  obtain ⟨doc, answers', hrun, h2, h3, h4, h5, h6, h7, h8, h9⟩ :=
    (generateForQuestion_idempotent ⟨[], [⟨1, 9, true, none, 0⟩]⟩
      (.ok ⟨"txt", 5⟩) (.ok ⟨"other", 9⟩) "gpt-4" 30 31 77 78 1).2.2
      ⟨"txt", 5⟩ ⟨1, 9, true, none, 0⟩ rfl hq rfl
  exact ⟨doc, answers', hrun, h2, h3, h4, h5, h6, h7, h8, h9⟩

end StackDaily
